import Mathlib

/-!
Verification development for the summarizer-api microservice
(`server.js` / `server.cjs`): a single-endpoint Express service whose
`POST /summarize` handler validates the request body, downloads a PDF,
extracts its text, builds a generation prompt from a fixed template plus
the first 15000 characters of the text, calls a generative model, strips
markdown code fences from the model output, parses it as JSON, and maps
failures to a 400 or 500 response.

The JavaScript is shallowly embedded: the handler and its two core
functions become pure Lean functions parameterised by the behaviour of the
three external collaborators (the HTTP fetch, the PDF text extraction and
the generative model), each modelled as a function returning
`Except String _` (error message or value).  The platform pieces the code
leans on (`JSON.parse`, `String.prototype.trim`, `String.prototype.slice`,
`String.prototype.replace` with the fence regex, `JSON.stringify`) are
modelled faithfully below.  JavaScript strings are modelled as Lean
strings (Unicode scalar values standing in for UTF-16 code units; none of
the verified properties depend on the difference).  JSON numbers are kept
as their lexemes: no verified property depends on numeric values, and this
avoids modelling IEEE floating point.
-/

namespace Summarizer

/-- JSON values as produced by the platform JSON parser.  Object members
keep their textual order; a duplicate key simply appears twice (the
JavaScript parser would keep the last occurrence, but no property proved
here inspects an object with duplicate keys). -/
inductive Json where
  | null : Json
  | bool (b : Bool) : Json
  | num (raw : String) : Json
  | str (s : String) : Json
  | arr (xs : List Json) : Json
  | obj (members : List (String × Json)) : Json

/-- Tokens of the JSON grammar. -/
inductive JToken where
  | lbrace | rbrace | lbrack | rbrack | colon | comma
  | tnull | ttrue | tfalse
  | str (s : String)
  | num (raw : String)
deriving DecidableEq

/-- Value of a hexadecimal digit, as in a \u escape. -/
def hexVal (c : Char) : Option Nat :=
  if '0' ≤ c ∧ c ≤ '9' then some (c.toNat - 48)
  else if 'a' ≤ c ∧ c ≤ 'f' then some (c.toNat - 87)
  else if 'A' ≤ c ∧ c ≤ 'F' then some (c.toNat - 55)
  else none

/-- Four hexadecimal digits and their value, as in a \u escape. -/
def lexHex4 : List Char → Option (Nat × List Char)
  | h1 :: h2 :: h3 :: h4 :: cs =>
    match hexVal h1, hexVal h2, hexVal h3, hexVal h4 with
    | some a, some b, some c, some d => some (((a * 16 + b) * 16 + c) * 16 + d, cs)
    | _, _, _, _ => none
  | _ => none

/-- A \u escape body (after the backslash and the u): four hex digits,
or a surrogate pair combined into the character it encodes.  A lone
UTF-16 surrogate is rejected (a Lean Char cannot hold it); no property
verified here exercises that corner. -/
def lexUEscape (cs : List Char) : Option (Char × List Char) :=
  match lexHex4 cs with
  | none => none
  | some (n, cs3) =>
    if 0xD800 ≤ n ∧ n ≤ 0xDBFF then
      match cs3 with
      | '\\' :: 'u' :: cs3b =>
        match lexHex4 cs3b with
        | some (m, cs4) =>
          if 0xDC00 ≤ m ∧ m ≤ 0xDFFF then
            some (Char.ofNat (0x10000 + (n - 0xD800) * 0x400 + (m - 0xDC00)), cs4)
          else none
        | none => none
      | _ => none
    else if 0xDC00 ≤ n ∧ n ≤ 0xDFFF then none
    else some (Char.ofNat n, cs3)

/-- The character a single-letter JSON string escape decodes to. -/
def escCharFor (e : Char) : Option Char :=
  if e = '\"' then some '\"'
  else if e = '\\' then some '\\'
  else if e = '/' then some '/'
  else if e = 'b' then some '\x08'
  else if e = 'f' then some '\x0c'
  else if e = 'n' then some '\n'
  else if e = 'r' then some '\x0d'
  else if e = 't' then some '\t'
  else none

/-- Lexes the body of a JSON string literal, after the opening quote:
returns the decoded content and the input after the closing quote.
Unescaped control characters (in particular a raw newline) are a syntax
error, exactly as in the ECMA-404 grammar used by JSON.parse.  `fuel`
bounds the recursion; every step consumes at least one character, so the
`input.length + 1` the tokenizer passes is always enough. -/
def lexStringCharsF : Nat → List Char → Option (List Char × List Char)
  | _, [] => none
  | 0, _ :: _ => none
  | Nat.succ fuel, c :: cs =>
    if c = '\"' then some ([], cs)
    else if c = '\\' then
      match cs with
      | [] => none
      | e :: cs2 =>
        if e = 'u' then
          match lexUEscape cs2 with
          | some (ch, cs3) => (lexStringCharsF fuel cs3).map (fun r => (ch :: r.1, r.2))
          | none => none
        else
          match escCharFor e with
          | some d => (lexStringCharsF fuel cs2).map (fun r => (d :: r.1, r.2))
          | none => none
    else if c.toNat < 0x20 then none
    else (lexStringCharsF fuel cs).map (fun r => (c :: r.1, r.2))

/-- Splits off the leading run of decimal digits. -/
def takeDigits : List Char → List Char × List Char
  | [] => ([], [])
  | c :: cs =>
    if c.isDigit then
      let r := takeDigits cs
      (c :: r.1, r.2)
    else ([], c :: cs)

/-- The integer part of a JSON number: 0, or a nonzero digit followed by
digits (so a leading zero never swallows further digits). -/
def lexInt : List Char → Option (List Char × List Char)
  | [] => none
  | c :: cs =>
    if c = '0' then some (['0'], cs)
    else if c.isDigit then
      let r := takeDigits cs
      some (c :: r.1, r.2)
    else none

/-- The optional fraction part of a JSON number. -/
def lexFrac : List Char → Option (List Char × List Char)
  | '.' :: cs =>
    let r := takeDigits cs
    if r.1.isEmpty then none else some ('.' :: r.1, r.2)
  | cs => some ([], cs)

/-- The optional exponent part of a JSON number. -/
def lexExp : List Char → Option (List Char × List Char)
  | [] => some ([], [])
  | c :: cs =>
    if c = 'e' ∨ c = 'E' then
      match cs with
      | [] => none
      | s :: cs2 =>
        if s = '+' ∨ s = '-' then
          let r := takeDigits cs2
          if r.1.isEmpty then none else some (c :: s :: r.1, r.2)
        else
          let r := takeDigits cs
          if r.1.isEmpty then none else some (c :: r.1, r.2)
    else some ([], c :: cs)

/-- Integer, fraction and exponent parts of an unsigned JSON number. -/
def lexIntFracExp (cs : List Char) : Option (List Char × List Char) :=
  match lexInt cs with
  | none => none
  | some (i, r1) =>
    match lexFrac r1 with
    | none => none
    | some (f, r2) =>
      match lexExp r2 with
      | none => none
      | some (e, r3) => some (i ++ f ++ e, r3)

/-- A JSON number lexeme, with its optional leading minus sign. -/
def lexNumber : List Char → Option (List Char × List Char)
  | '-' :: cs =>
    match lexIntFracExp cs with
    | some (raw, rest) => some ('-' :: raw, rest)
    | none => none
  | cs => lexIntFracExp cs

/-- The whitespace characters of the JSON grammar (space, tab, newline,
carriage return) - the only ones JSON.parse skips between tokens. -/
def isJsonWs (c : Char) : Bool :=
  c == ' ' || c == '\t' || c == '\n' || c == '\x0d'

/-- The punctuation token a character stands for, if any. -/
def punctToken (c : Char) : Option JToken :=
  if c = '\x7b' then some JToken.lbrace
  else if c = '\x7d' then some JToken.rbrace
  else if c = '[' then some JToken.lbrack
  else if c = ']' then some JToken.rbrack
  else if c = ':' then some JToken.colon
  else if c = ',' then some JToken.comma
  else none

/-- The keyword token (null, true, false) starting at character `c` with
tail `cs`, and the input after it. -/
def lexKeyword (c : Char) (cs : List Char) : Option (JToken × List Char) :=
  if c = 'n' then
    match cs with
    | 'u' :: 'l' :: 'l' :: rest => some (JToken.tnull, rest)
    | _ => none
  else if c = 't' then
    match cs with
    | 'r' :: 'u' :: 'e' :: rest => some (JToken.ttrue, rest)
    | _ => none
  else if c = 'f' then
    match cs with
    | 'a' :: 'l' :: 's' :: 'e' :: rest => some (JToken.tfalse, rest)
    | _ => none
  else none

/-- The JSON tokenizer.  `fuel` bounds the recursion; every step consumes
at least one character, so `input.length + 1` is always enough fuel (this
is how `jsonParse` calls it). -/
def tokenizeF : Nat → List Char → Option (List JToken)
  | _, [] => some []
  | 0, _ :: _ => none
  | Nat.succ fuel, c :: cs =>
    if isJsonWs c then tokenizeF fuel cs
    else
      match punctToken c with
      | some t => (tokenizeF fuel cs).map (fun ts => t :: ts)
      | none =>
        if c = '\"' then
          match lexStringCharsF (cs.length + 1) cs with
          | some (content, rest) =>
            (tokenizeF fuel rest).map (fun ts => JToken.str (String.mk content) :: ts)
          | none => none
        else if c = '-' ∨ c.isDigit then
          match lexNumber (c :: cs) with
          | some (raw, rest) =>
            (tokenizeF fuel rest).map (fun ts => JToken.num (String.mk raw) :: ts)
          | none => none
        else
          match lexKeyword c cs with
          | some (t, rest) => (tokenizeF fuel rest).map (fun ts => t :: ts)
          | none => none

mutual

/-- Parses one JSON value from the token stream.  `fuel` bounds the
recursion; each nesting level consumes tokens, so the generous
`2 * tokens + 2` used by `jsonParse` is always enough. -/
def parseVal : Nat → List JToken → Option (Json × List JToken)
  | 0, _ => none
  | Nat.succ fuel, ts =>
    match ts with
    | JToken.tnull :: r => some (Json.null, r)
    | JToken.ttrue :: r => some (Json.bool true, r)
    | JToken.tfalse :: r => some (Json.bool false, r)
    | JToken.num s :: r => some (Json.num s, r)
    | JToken.str s :: r => some (Json.str s, r)
    | JToken.lbrack :: JToken.rbrack :: r => some (Json.arr [], r)
    | JToken.lbrack :: r =>
      match parseItems fuel r with
      | some (xs, r2) => some (Json.arr xs, r2)
      | none => none
    | JToken.lbrace :: JToken.rbrace :: r => some (Json.obj [], r)
    | JToken.lbrace :: r =>
      match parseMembers fuel r with
      | some (ms, r2) => some (Json.obj ms, r2)
      | none => none
    | _ => none

/-- Parses the comma-separated items of a nonempty array, up to and
including the closing bracket. -/
def parseItems : Nat → List JToken → Option (List Json × List JToken)
  | 0, _ => none
  | Nat.succ fuel, ts =>
    match parseVal fuel ts with
    | none => none
    | some (v, r) =>
      match r with
      | JToken.comma :: r2 =>
        (parseItems fuel r2).map (fun p => (v :: p.1, p.2))
      | JToken.rbrack :: r2 => some ([v], r2)
      | _ => none

/-- Parses the comma-separated members of a nonempty object, up to and
including the closing brace. -/
def parseMembers : Nat → List JToken → Option (List (String × Json) × List JToken)
  | 0, _ => none
  | Nat.succ fuel, ts =>
    match ts with
    | JToken.str k :: JToken.colon :: r =>
      match parseVal fuel r with
      | none => none
      | some (v, r2) =>
        match r2 with
        | JToken.comma :: r3 =>
          (parseMembers fuel r3).map (fun p => ((k, v) :: p.1, p.2))
        | JToken.rbrace :: r3 => some ([(k, v)], r3)
        | _ => none
    | _ => none

end

/-- Model of the platform JSON.parse: tokenize, parse one value, require
the input to be exhausted.  `none` models the SyntaxError throw. -/
def jsonParse (cs : List Char) : Option Json :=
  match tokenizeF (cs.length + 1) cs with
  | none => none
  | some ts =>
    match parseVal (2 * ts.length + 2) ts with
    | some (v, []) => some v
    | _ => none

/-- The WhiteSpace and LineTerminator characters trimmed by the
JavaScript String.prototype.trim. -/
def isJsWhitespaceChar (c : Char) : Bool :=
  c.toNat = 9 || c.toNat = 10 || c.toNat = 11 || c.toNat = 12 || c.toNat = 13 ||
  c.toNat = 32 || c.toNat = 0xA0 || c.toNat = 0x1680 ||
  (0x2000 ≤ c.toNat && c.toNat ≤ 0x200A) ||
  c.toNat = 0x2028 || c.toNat = 0x2029 || c.toNat = 0x202F ||
  c.toNat = 0x205F || c.toNat = 0x3000 || c.toNat = 0xFEFF

/-- Model of the platform String.prototype.trim. -/
def jsTrimList (l : List Char) : List Char :=
  ((l.dropWhile isJsWhitespaceChar).reverse.dropWhile isJsWhitespaceChar).reverse

/-- Model of the platform String.prototype.slice(0, n): the first
min(length, n) characters. -/
def jsSlice (s : String) (n : Nat) : String :=
  String.mk (s.data.take n)

/-- Whether `pat` occurs at the start of `l`. -/
def startsWithSeq : List Char → List Char → Bool
  | _, [] => true
  | [], _ :: _ => false
  | a :: l, b :: p => a == b && startsWithSeq l p

/-- Whether `pat` occurs anywhere in `l`; models String.prototype.includes. -/
def containsSeq : List Char → List Char → Bool
  | [], pat => pat.isEmpty
  | a :: l, pat => startsWithSeq (a :: l) pat || containsSeq l pat

/-- Lowercase hexadecimal digit, for serializing escaped control characters. -/
def hexDigit (n : Nat) : Char :=
  if n < 10 then Char.ofNat (48 + n) else Char.ofNat (87 + n)

/-- The escape JSON.stringify applies to one character of a string value. -/
def escChar (c : Char) : List Char :=
  if c = '\"' then ['\\', '\"']
  else if c = '\\' then ['\\', '\\']
  else if c = '\x08' then ['\\', 'b']
  else if c = '\x0c' then ['\\', 'f']
  else if c = '\n' then ['\\', 'n']
  else if c = '\x0d' then ['\\', 'r']
  else if c = '\t' then ['\\', 't']
  else if c.toNat < 0x20 then ['\\', 'u', '0', '0', hexDigit (c.toNat / 16), hexDigit (c.toNat % 16)]
  else [c]

/-- A JSON string literal for `s`, as JSON.stringify writes it. -/
def encodeStringLit (s : String) : String :=
  String.mk ('\"' :: (s.data.map escChar).flatten ++ ['\"'])

mutual

/-- Model of the platform JSON.stringify (as used by Express res.json to
turn the response value into bytes).  Numbers are emitted as their lexeme
(the model of numbers used throughout; no verified property inspects a
number). -/
def Json.serialize : Json → String
  | Json.null => "null"
  | Json.bool true => "true"
  | Json.bool false => "false"
  | Json.num raw => raw
  | Json.str s => encodeStringLit s
  | Json.arr xs => "[" ++ serializeItems xs ++ "]"
  | Json.obj ms => "\x7b" ++ serializeMembers ms ++ "\x7d"

/-- Comma-separated serialization of array items. -/
def serializeItems : List Json → String
  | [] => ""
  | [x] => Json.serialize x
  | x :: y :: t => Json.serialize x ++ "," ++ serializeItems (y :: t)

/-- Comma-separated serialization of object members. -/
def serializeMembers : List (String × Json) → String
  | [] => ""
  | [(k, v)] => encodeStringLit k ++ ":" ++ Json.serialize v
  | (k, v) :: m :: t => encodeStringLit k ++ ":" ++ Json.serialize v ++ "," ++ serializeMembers (m :: t)

end

/-- An HTTP response as the handler produces it: a status code and the
JSON value passed to res.json. -/
structure HttpResponse where
  status : Nat
  body : Json

/-- The parsed request body of POST /summarize, after the destructuring
const (url, title) = req.body: each field is a string or absent.  (With
the express.json middleware a missing body yields an empty object, hence
two absent fields.) -/
structure SummaryRequest where
  url : Option String
  title : Option String

/-- One outbound network call of the pipeline: the axios GET of the PDF
or the generateContent call to the model, with its argument. -/
inductive Call where
  | fetch (url : String)
  | generate (prompt : String)
deriving DecidableEq

/-- Model of the message of the SyntaxError the platform JSON.parse
throws on malformed input.  The V8 messages (for example "Unexpected
token o in JSON at position 1", "Unexpected end of JSON input") all
contain the substring "JSON", which is the only aspect of the message the
handler inspects. -/
def jsonParseErrorMessage : String := "Unexpected end of JSON input"

namespace ServerJs

/-- Downloads the PDF and extracts its raw text content (server.js,
extractTextFromPdf): the axios GET then pdf-parse, each a collaborator
returning data or an error message.  The second component records the
outbound network call made. -/
def extractTextFromPdf {β : Type} (axiosGet : String → Except String β)
    (pdfParse : β → Except String String) (url : String) :
    Except String String × List Call :=
  match axiosGet url with
  | Except.error e => (Except.error e, [Call.fetch url])
  | Except.ok buf =>
    match pdfParse buf with
    | Except.error e => (Except.error e, [Call.fetch url])
    | Except.ok text => (Except.ok text, [Call.fetch url])

/-- The fixed instruction template of the generation prompt (server.js,
generateSummary): everything of the template literal before the
interpolated, truncated document text. -/
def promptTemplate : String :=
  "Act as an expert UPSC analyst. Summarize the text into Gist (2 sentences, positive tone), 5 Key Points (HTML bullet list), and Relevance (who needs this document). Respond ONLY in structured JSON format. Document Text: "

/-- The generation prompt: the template followed by text.slice(0, 15000).
The title reaches generateSummary but is not interpolated. -/
def buildPrompt (text : String) (title : String) : String :=
  promptTemplate ++ jsSlice text 15000

/-- Removal of the markdown fences (server.js line 63): the global
regex replace of every left-to-right occurrence of the opening fence
(three backticks, json, newline) or the closing fence (newline, three
backticks) by the empty string. -/
def stripFences : List Char → List Char
  | '\x60' :: '\x60' :: '\x60' :: 'j' :: 's' :: 'o' :: 'n' :: '\n' :: rest => stripFences rest
  | '\n' :: '\x60' :: '\x60' :: '\x60' :: rest => stripFences rest
  | c :: rest => c :: stripFences rest
  | [] => []

/-- The response normalizer (server.js lines 63-64): trim, fence
removal, trim, JSON.parse. -/
def cleanAndParse (raw : String) : Option Json :=
  jsonParse (jsTrimList (stripFences (jsTrimList raw.data)))

/-- Calls the model to summarize the text (server.js, generateSummary):
builds the prompt, invokes the generateContent collaborator, then cleans
and parses the model output.  A parse failure surfaces as the platform
SyntaxError message.  The second component records the outbound call. -/
def generateSummary (genContent : String → Except String String)
    (text : String) (title : String) : Except String Json × List Call :=
  let prompt := buildPrompt text title
  match genContent prompt with
  | Except.error e => (Except.error e, [Call.generate prompt])
  | Except.ok responseText =>
    match cleanAndParse responseText with
    | some j => (Except.ok j, [Call.generate prompt])
    | none => (Except.error jsonParseErrorMessage, [Call.generate prompt])

/-- The 400 response for a missing or empty url or title. -/
def missingFieldsResponse : HttpResponse :=
  HttpResponse.mk 400
    (Json.obj [("error", Json.str "Missing \x27url\x27 or \x27title\x27 in request body.")])

/-- The 500 response of the catch block, with its details chosen by
whether the error message contains the substring "JSON". -/
def catchResponse (message : String) : HttpResponse :=
  HttpResponse.mk 500
    (Json.obj [("error", Json.str "Failed to process document or generate summary."),
      ("details", Json.str (if containsSeq message.data "JSON".data
        then "AI structure error or malformed response."
        else "External PDF access failure."))])

/-- The POST /summarize handler (server.js lines 71-97).  The check
if (!url || !title) rejects an absent field or an empty string (the only
falsy string); then the pipeline runs, its first failure caught into the
500 response.  The second component records the outbound network calls
made, in order. -/
def handleSummarize {β : Type} (axiosGet : String → Except String β)
    (pdfParse : β → Except String String) (genContent : String → Except String String)
    (body : SummaryRequest) : HttpResponse × List Call :=
  match body.url, body.title with
  | some url, some title =>
    if url = "" ∨ title = "" then (missingFieldsResponse, [])
    else
      match extractTextFromPdf axiosGet pdfParse url with
      | (Except.error e, calls) => (catchResponse e, calls)
      | (Except.ok documentText, calls) =>
        match generateSummary genContent documentText title with
        | (Except.error e, calls2) => (catchResponse e, calls ++ calls2)
        | (Except.ok summary, calls2) => (HttpResponse.mk 200 summary, calls ++ calls2)
  | _, _ => (missingFieldsResponse, [])

/-- Two invocations of the handler on the same request and the same
collaborator behaviour, one after the other. -/
def runTwice {β : Type} (axiosGet : String → Except String β)
    (pdfParse : β → Except String String) (genContent : String → Except String String)
    (body : SummaryRequest) : (HttpResponse × List Call) × (HttpResponse × List Call) :=
  (handleSummarize axiosGet pdfParse genContent body,
   handleSummarize axiosGet pdfParse genContent body)

end ServerJs

namespace ServerCjs

/-- Downloads the PDF and extracts its raw text content (server.cjs,
extractTextFromPdf). -/
def extractTextFromPdf {β : Type} (axiosGet : String → Except String β)
    (pdfParse : β → Except String String) (url : String) :
    Except String String × List Call :=
  match axiosGet url with
  | Except.error e => (Except.error e, [Call.fetch url])
  | Except.ok buf =>
    match pdfParse buf with
    | Except.error e => (Except.error e, [Call.fetch url])
    | Except.ok text => (Except.ok text, [Call.fetch url])

/-- The fixed instruction template of the generation prompt (server.cjs,
generateSummary). -/
def promptTemplate : String :=
  "Act as an expert UPSC analyst. Summarize the text into Gist (2 sentences, positive tone), 5 Key Points (HTML bullet list), and Relevance (who needs this document). Respond ONLY in structured JSON format. Document Text: "

/-- The generation prompt of server.cjs. -/
def buildPrompt (text : String) (title : String) : String :=
  promptTemplate ++ jsSlice text 15000

/-- The fence removal of server.cjs line 73. -/
def stripFences : List Char → List Char
  | '\x60' :: '\x60' :: '\x60' :: 'j' :: 's' :: 'o' :: 'n' :: '\n' :: rest => stripFences rest
  | '\n' :: '\x60' :: '\x60' :: '\x60' :: rest => stripFences rest
  | c :: rest => c :: stripFences rest
  | [] => []

/-- The response normalizer of server.cjs lines 73-74. -/
def cleanAndParse (raw : String) : Option Json :=
  jsonParse (jsTrimList (stripFences (jsTrimList raw.data)))

/-- Calls the model to summarize the text (server.cjs, generateSummary). -/
def generateSummary (genContent : String → Except String String)
    (text : String) (title : String) : Except String Json × List Call :=
  let prompt := buildPrompt text title
  match genContent prompt with
  | Except.error e => (Except.error e, [Call.generate prompt])
  | Except.ok responseText =>
    match cleanAndParse responseText with
    | some j => (Except.ok j, [Call.generate prompt])
    | none => (Except.error jsonParseErrorMessage, [Call.generate prompt])

/-- The 400 response of server.cjs. -/
def missingFieldsResponse : HttpResponse :=
  HttpResponse.mk 400
    (Json.obj [("error", Json.str "Missing \x27url\x27 or \x27title\x27 in request body.")])

/-- The 500 response of the catch block of server.cjs. -/
def catchResponse (message : String) : HttpResponse :=
  HttpResponse.mk 500
    (Json.obj [("error", Json.str "Failed to process document or generate summary."),
      ("details", Json.str (if containsSeq message.data "JSON".data
        then "AI structure error or malformed response."
        else "External PDF access failure."))])

/-- The POST /summarize handler (server.cjs lines 80-105). -/
def handleSummarize {β : Type} (axiosGet : String → Except String β)
    (pdfParse : β → Except String String) (genContent : String → Except String String)
    (body : SummaryRequest) : HttpResponse × List Call :=
  match body.url, body.title with
  | some url, some title =>
    if url = "" ∨ title = "" then (missingFieldsResponse, [])
    else
      match extractTextFromPdf axiosGet pdfParse url with
      | (Except.error e, calls) => (catchResponse e, calls)
      | (Except.ok documentText, calls) =>
        match generateSummary genContent documentText title with
        | (Except.error e, calls2) => (catchResponse e, calls ++ calls2)
        | (Except.ok summary, calls2) => (HttpResponse.mk 200 summary, calls ++ calls2)
  | _, _ => (missingFieldsResponse, [])

end ServerCjs

/-- The axios failure kinds named by the spec for an unreachable or
failing fetch, with the message each produces at runtime (Node/axios
messages: the connect and getaddrinfo errno strings, and the axios
non-2xx message).  None of them contains the substring "JSON". -/
inductive FetchFailure where
  | hostUnreachable
  | connectionRefused
  | dnsFailure
  | badStatus
deriving DecidableEq

/-- The runtime error message of each fetch failure kind. -/
def axiosErrorMessage : FetchFailure → String
  | FetchFailure.hostUnreachable => "connect EHOSTUNREACH 203.0.113.9:443"
  | FetchFailure.connectionRefused => "connect ECONNREFUSED 127.0.0.1:3001"
  | FetchFailure.dnsFailure => "getaddrinfo ENOTFOUND upsc.gov.invalid"
  | FetchFailure.badStatus => "Request failed with status code 404"


/-! ### Definitions used by the verification layer -/

/-- Whether the two adjacent characters a, b can witness a fence
substring: the pair (newline, backtick) opens the closing fence and the
pair (n, newline) ends the opening fence.  Neither pair can occur in
syntactically valid JSON. -/
def pairBad (a b : Char) : Bool :=
  (a == '\n' && b == '\x60') || (a == 'n' && b == '\n')

/-- No two adjacent characters of the list form a bad pair. -/
def badPairFree : List Char → Bool
  | a :: b :: t => !pairBad a b && badPairFree (b :: t)
  | _ => true

/-- The characters a JSON number lexeme is made of. -/
def isNumChar (c : Char) : Bool :=
  c.isDigit || c == '-' || c == '+' || c == '.' || c == 'e' || c == 'E'

/-- The characters of the opening fence the normalizer removes. -/
def fenceOpenChars : List Char := ['\x60', '\x60', '\x60', 'j', 's', 'o', 'n', '\n']

/-- The characters of the closing fence the normalizer removes. -/
def fenceCloseChars : List Char := ['\n', '\x60', '\x60', '\x60']


end Summarizer

/-! ## Theorems -/

namespace Summarizer

theorem pairBad_true_iff (a b : Char) :
    pairBad a b = true ↔ (a = '\n' ∧ b = '\x60') ∨ (a = 'n' ∧ b = '\n') := by
  simp [pairBad]

theorem badPairFree_cons (c : Char) (l : List Char) (hl : badPairFree l = true)
    (hp : ∀ b, l.head? = some b → pairBad c b = false) :
    badPairFree (c :: l) = true := by
  cases l with
  | nil => rfl
  | cons b t =>
    have := hp b rfl
    simp [badPairFree, this, hl]

theorem badPairFree_of_cons (c : Char) (l : List Char)
    (h : badPairFree (c :: l) = true) : badPairFree l = true := by
  cases l with
  | nil => rfl
  | cons b t =>
    simp [badPairFree] at h
    exact h.2

theorem badPairFree_head (c b : Char) (l : List Char)
    (h : badPairFree (c :: b :: l) = true) : pairBad c b = false := by
  simp [badPairFree] at h
  exact h.1

theorem badPairFree_of_no_newline (l : List Char) (h : ∀ x ∈ l, x ≠ '\n') :
    badPairFree l = true := by
  induction l with
  | nil => rfl
  | cons a t ih =>
    apply badPairFree_cons a t (ih (fun x hx => h x (List.mem_cons_of_mem a hx)))
    intro b hb
    have hbmem : b ∈ t := by
      cases t with
      | nil => simp at hb
      | cons b2 t2 =>
        simp only [List.head?, Option.some.injEq] at hb
        rw [← hb]
        exact List.mem_cons_self _ _
    rcases hp : pairBad a b with _ | _
    · rfl
    · rcases (pairBad_true_iff a b).1 hp with ⟨ha, hb2⟩ | ⟨ha, hb2⟩
      · exact absurd ha (h a (List.mem_cons_self a _))
      · exact absurd hb2 (h b (List.mem_cons_of_mem a hbmem))

theorem badPairFree_append (xs ys : List Char) (hx : badPairFree xs = true)
    (hy : badPairFree ys = true)
    (hb : ∀ a b, xs.getLast? = some a → ys.head? = some b → pairBad a b = false) :
    badPairFree (xs ++ ys) = true := by
  induction xs with
  | nil => simpa using hy
  | cons a t ih =>
    cases t with
    | nil =>
      apply badPairFree_cons a ys hy
      intro b hbb
      exact hb a b rfl hbb
    | cons a2 t2 =>
      have hx2 : badPairFree (a2 :: t2) = true := badPairFree_of_cons a _ hx
      have hp : pairBad a a2 = false := badPairFree_head a a2 t2 hx
      have ihr := ih hx2 (fun a' b' hl hh => hb a' b' (by rw [List.getLast?_cons_cons]; exact hl) hh)
      show badPairFree (a :: (a2 :: t2 ++ ys)) = true
      apply badPairFree_cons a _ ihr
      intro b hbb
      simp only [List.cons_append, List.head?] at hbb
      cases hbb
      exact hp

theorem badPairFree_append_right (xs ys : List Char)
    (h : badPairFree (xs ++ ys) = true) : badPairFree ys = true := by
  induction xs with
  | nil => simpa using h
  | cons a t ih =>
    exact ih (badPairFree_of_cons a _ h)

theorem takeDigits_span : ∀ cs : List Char,
    cs = (takeDigits cs).1 ++ (takeDigits cs).2 ∧ ∀ x ∈ (takeDigits cs).1, isNumChar x = true := by
  intro cs
  induction cs with
  | nil => exact ⟨rfl, by intro x hx; simp [takeDigits] at hx⟩
  | cons c t ih =>
    by_cases hd : c.isDigit
    · rw [takeDigits]
      simp only [hd, if_true]
      constructor
      · show c :: t = c :: (takeDigits t).1 ++ (takeDigits t).2
        rw [List.cons_append, ← ih.1]
      · intro x hx
        rcases List.mem_cons.1 hx with h | h
        · subst h
          simp [isNumChar, hd]
        · exact ih.2 x h
    · rw [takeDigits]
      simp only [hd, if_false]
      exact ⟨rfl, by intro x hx; simp at hx⟩

theorem lexInt_span : ∀ cs raw rest, lexInt cs = some (raw, rest) →
    cs = raw ++ rest ∧ ∀ x ∈ raw, isNumChar x = true := by
  intro cs raw rest h
  match cs with
  | [] => simp [lexInt] at h
  | c :: t =>
    rw [lexInt] at h
    by_cases h0 : c = '0'
    · rw [if_pos h0] at h
      simp only [Option.some.injEq, Prod.mk.injEq] at h
      obtain ⟨h1, h2⟩ := h
      subst h1; subst h2; subst h0
      exact ⟨rfl, by intro x hx; simp at hx; subst hx; rfl⟩
    · rw [if_neg h0] at h
      by_cases hd : c.isDigit
      · rw [if_pos hd] at h
        simp only [Option.some.injEq, Prod.mk.injEq] at h
        obtain ⟨h1, h2⟩ := h
        subst h1; subst h2
        have ht := takeDigits_span t
        constructor
        · rw [List.cons_append, ← ht.1]
        · intro x hx
          rcases List.mem_cons.1 hx with h | h
          · subst h; simp [isNumChar, hd]
          · exact ht.2 x h
      · rw [if_neg hd] at h
        exact absurd h (by simp)

theorem lexFrac_span : ∀ cs raw rest, lexFrac cs = some (raw, rest) →
    cs = raw ++ rest ∧ ∀ x ∈ raw, isNumChar x = true := by
  intro cs raw rest h
  rw [lexFrac.eq_def] at h
  split at h
  · next t =>
    by_cases he : (takeDigits t).1.isEmpty
    · rw [if_pos he] at h; exact absurd h (by simp)
    · rw [if_neg he] at h
      simp only [Option.some.injEq, Prod.mk.injEq] at h
      obtain ⟨h1, h2⟩ := h
      subst h1; subst h2
      have ht := takeDigits_span t
      constructor
      · rw [List.cons_append, ← ht.1]
      · intro x hx
        rcases List.mem_cons.1 hx with h | h
        · subst h; rfl
        · exact ht.2 x h
  · simp only [Option.some.injEq, Prod.mk.injEq] at h
    obtain ⟨h1, h2⟩ := h
    subst h1; subst h2
    exact ⟨rfl, by intro x hx; simp at hx⟩

theorem lexExp_span : ∀ cs raw rest, lexExp cs = some (raw, rest) →
    cs = raw ++ rest ∧ ∀ x ∈ raw, isNumChar x = true := by
  intro cs raw rest h
  rw [lexExp.eq_def] at h
  split at h
  · -- nil
    simp only [Option.some.injEq, Prod.mk.injEq] at h
    obtain ⟨h1, h2⟩ := h
    subst h1; subst h2
    exact ⟨rfl, by intro x hx; simp at hx⟩
  · next c t =>
    by_cases hce : c = 'e' ∨ c = 'E'
    · rw [if_pos hce] at h
      match t, h with
      | [], h => simp at h
      | s :: t2, h =>
        dsimp only at h
        by_cases hs : s = '+' ∨ s = '-'
        · rw [if_pos hs] at h
          by_cases he : (takeDigits t2).1.isEmpty
          · rw [if_pos he] at h; exact absurd h (by simp)
          · rw [if_neg he] at h
            simp only [Option.some.injEq, Prod.mk.injEq] at h
            obtain ⟨h1, h2⟩ := h
            subst h1; subst h2
            have ht := takeDigits_span t2
            constructor
            · simp only [List.cons_append]
              rw [← ht.1]
            · intro x hx
              rcases List.mem_cons.1 hx with h | h
              · subst h
                rcases hce with hc | hc <;> subst hc <;> rfl
              · rcases List.mem_cons.1 h with h | h
                · subst h
                  rcases hs with hs | hs <;> subst hs <;> rfl
                · exact ht.2 x h
        · rw [if_neg hs] at h
          by_cases he : (takeDigits (s :: t2)).1.isEmpty
          · rw [if_pos he] at h; exact absurd h (by simp)
          · rw [if_neg he] at h
            simp only [Option.some.injEq, Prod.mk.injEq] at h
            obtain ⟨h1, h2⟩ := h
            subst h1; subst h2
            have ht := takeDigits_span (s :: t2)
            constructor
            · simp only [List.cons_append]
              rw [← ht.1]
            · intro x hx
              rcases List.mem_cons.1 hx with h | h
              · subst h
                rcases hce with hc | hc <;> subst hc <;> rfl
              · exact ht.2 x h
    · rw [if_neg hce] at h
      simp only [Option.some.injEq, Prod.mk.injEq] at h
      obtain ⟨h1, h2⟩ := h
      subst h1; subst h2
      exact ⟨rfl, by intro x hx; simp at hx⟩

theorem lexIntFracExp_span : ∀ cs raw rest, lexIntFracExp cs = some (raw, rest) →
    cs = raw ++ rest ∧ ∀ x ∈ raw, isNumChar x = true := by
  intro cs raw rest h
  rw [lexIntFracExp] at h
  rcases hI : lexInt cs with _ | ⟨i, r1⟩
  · rw [hI] at h; simp at h
  · rw [hI] at h
    dsimp only at h
    rcases hF : lexFrac r1 with _ | ⟨f, r2⟩
    · rw [hF] at h; simp at h
    · rw [hF] at h
      dsimp only at h
      rcases hX : lexExp r2 with _ | ⟨e, r3⟩
      · rw [hX] at h; simp at h
      · rw [hX] at h
        simp only [Option.some.injEq, Prod.mk.injEq] at h
        obtain ⟨h1, h2⟩ := h
        subst h1; subst h2
        have hi := lexInt_span cs i r1 hI
        have hf := lexFrac_span r1 f r2 hF
        have hx := lexExp_span r2 e r3 hX
        constructor
        · rw [hi.1, hf.1, hx.1]
          simp [List.append_assoc]
        · intro x hx2
          rcases List.mem_append.1 hx2 with hm | hm
          · rcases List.mem_append.1 hm with hm2 | hm2
            · exact hi.2 x hm2
            · exact hf.2 x hm2
          · exact hx.2 x hm

theorem lexNumber_span : ∀ cs raw rest, lexNumber cs = some (raw, rest) →
    cs = raw ++ rest ∧ ∀ x ∈ raw, isNumChar x = true := by
  intro cs raw rest h
  rw [lexNumber.eq_def] at h
  split at h
  · next t =>
    rcases hI : lexIntFracExp t with _ | ⟨raw2, rest2⟩
    · rw [hI] at h; simp at h
    · rw [hI] at h
      simp only [Option.some.injEq, Prod.mk.injEq] at h
      obtain ⟨h1, h2⟩ := h
      subst h1; subst h2
      have ht := lexIntFracExp_span t raw2 rest2 hI
      constructor
      · rw [List.cons_append, ← ht.1]
      · intro x hx
        rcases List.mem_cons.1 hx with hm | hm
        · subst hm; rfl
        · exact ht.2 x hm
  · exact lexIntFracExp_span _ _ _ h

theorem hexVal_ne_newline (x : Char) (a : Nat) (h : hexVal x = some a) : x ≠ '\n' := by
  intro hx
  subst hx
  simp [hexVal] at h

theorem map_cons_eq_some (o : Option (List Char × List Char)) (c2 : Char)
    (content rest : List Char)
    (hm : o.map (fun r => (c2 :: r.1, r.2)) = some (content, rest)) :
    ∃ content2, o = some (content2, rest) ∧ content = c2 :: content2 := by
  rcases Option.map_eq_some'.1 hm with ⟨⟨content2, rest2⟩, hX, heq⟩
  simp only [Prod.mk.injEq] at heq
  obtain ⟨h1, h2⟩ := heq
  subst h2
  exact ⟨content2, hX, h1.symm⟩

theorem lexHex4_span (cs : List Char) (n : Nat) (rest : List Char)
    (h : lexHex4 cs = some (n, rest)) :
    ∃ pre, cs = pre ++ rest ∧ ∀ x ∈ pre, x ≠ '\n' := by
  match cs with
  | h1 :: h2 :: h3 :: h4 :: cs5 =>
    rw [lexHex4] at h
    rcases e1 : hexVal h1 with _ | a <;> rcases e2 : hexVal h2 with _ | b <;>
      rcases e3 : hexVal h3 with _ | c <;> rcases e4 : hexVal h4 with _ | d <;>
        rw [e1, e2, e3, e4] at h <;> dsimp only at h <;>
          try exact Option.noConfusion h
    simp only [Option.some.injEq, Prod.mk.injEq] at h
    obtain ⟨_, hr⟩ := h
    subst hr
    refine ⟨[h1, h2, h3, h4], rfl, ?_⟩
    intro x hx
    rcases List.mem_cons.1 hx with hh | hx
    · subst hh; exact hexVal_ne_newline _ _ e1
    rcases List.mem_cons.1 hx with hh | hx
    · subst hh; exact hexVal_ne_newline _ _ e2
    rcases List.mem_cons.1 hx with hh | hx
    · subst hh; exact hexVal_ne_newline _ _ e3
    rcases List.mem_cons.1 hx with hh | hx
    · subst hh; exact hexVal_ne_newline _ _ e4
    · simp at hx
  | [] => simp [lexHex4] at h
  | [x1] => simp [lexHex4] at h
  | [x1, x2] => simp [lexHex4] at h
  | [x1, x2, x3] => simp [lexHex4] at h

theorem lexUEscape_span (cs : List Char) (ch : Char) (rest : List Char)
    (h : lexUEscape cs = some (ch, rest)) :
    ∃ pre, cs = pre ++ rest ∧ ∀ x ∈ pre, x ≠ '\n' := by
  rw [lexUEscape] at h
  rcases e1 : lexHex4 cs with _ | ⟨n, cs3⟩
  · rw [e1] at h; simp at h
  · rw [e1] at h
    dsimp only at h
    by_cases hsur : 0xD800 ≤ n ∧ n ≤ 0xDBFF
    · rw [if_pos hsur] at h
      split at h
      case _ cs3b =>
        rcases e2 : lexHex4 cs3b with _ | ⟨m, cs4⟩
        · rw [e2] at h; simp at h
        · rw [e2] at h
          dsimp only at h
          by_cases hlo : 0xDC00 ≤ m ∧ m ≤ 0xDFFF
          · rw [if_pos hlo] at h
            simp only [Option.some.injEq, Prod.mk.injEq] at h
            obtain ⟨_, hr⟩ := h
            subst hr
            obtain ⟨pre1, hcs, hn1⟩ := lexHex4_span cs n ('\\' :: 'u' :: cs3b) e1
            obtain ⟨pre2, hcs2, hn2⟩ := lexHex4_span cs3b m cs4 e2
            refine ⟨pre1 ++ '\\' :: 'u' :: pre2, ?_, ?_⟩
            · rw [hcs, hcs2]
              simp
            · intro x hx
              rcases List.mem_append.1 hx with hm1 | hm1
              · exact hn1 x hm1
              rcases List.mem_cons.1 hm1 with hh | hm2
              · subst hh; decide
              rcases List.mem_cons.1 hm2 with hh | hm3
              · subst hh; decide
              · exact hn2 x hm3
          · rw [if_neg hlo] at h; simp at h
      case _ =>
        exact absurd h (by simp)
    · rw [if_neg hsur] at h
      by_cases hlo : 0xDC00 ≤ n ∧ n ≤ 0xDFFF
      · rw [if_pos hlo] at h; simp at h
      · rw [if_neg hlo] at h
        simp only [Option.some.injEq, Prod.mk.injEq] at h
        obtain ⟨_, hr⟩ := h
        subst hr
        exact lexHex4_span cs n cs3 e1

theorem escCharFor_ne_newline (e d : Char) (h : escCharFor e = some d) : e ≠ '\n' := by
  intro he
  subst he
  simp [escCharFor] at h

theorem lexStringCharsF_span : ∀ fuel cs content rest,
    lexStringCharsF fuel cs = some (content, rest) →
    ∃ raw, cs = raw ++ '\"' :: rest ∧ ∀ x ∈ raw, x ≠ '\n' := by
  intro fuel
  induction fuel with
  | zero =>
    intro cs content rest h
    match cs with
    | [] => exact absurd h (by rw [show lexStringCharsF 0 [] = none from rfl]; simp)
    | c :: cs1 => exact absurd h (by rw [show lexStringCharsF 0 (c :: cs1) = none from rfl]; simp)
  | succ fuel ih =>
    intro cs content rest h
    match cs with
    | [] => exact absurd h (by rw [show lexStringCharsF (fuel + 1) [] = none from rfl]; simp)
    | c :: cs1 =>
      rw [lexStringCharsF.eq_def] at h
      dsimp only at h
      by_cases hq : c = '\"'
      · rw [if_pos hq] at h
        simp only [Option.some.injEq, Prod.mk.injEq] at h
        subst hq
        refine ⟨[], ?_, by simp⟩
        rw [h.2]
        rfl
      · rw [if_neg hq] at h
        by_cases hb : c = '\\'
        · rw [if_pos hb] at h
          subst hb
          match cs1, h with
          | [], h => exact Option.noConfusion h
          | e :: cs2, h =>
            dsimp only at h
            by_cases hu : e = 'u'
            · rw [if_pos hu] at h
              subst hu
              rcases eU : lexUEscape cs2 with _ | ⟨ch, cs3⟩
              · rw [eU] at h; simp at h
              · rw [eU] at h
                dsimp only at h
                obtain ⟨content2, hX, hc⟩ := map_cons_eq_some _ _ _ _ h
                obtain ⟨raw2, hcs3, hn3⟩ := ih cs3 content2 rest hX
                obtain ⟨pre, hcs2, hnp⟩ := lexUEscape_span cs2 ch cs3 eU
                refine ⟨'\\' :: 'u' :: pre ++ raw2, ?_, ?_⟩
                · rw [hcs2, hcs3]
                  simp
                · intro x hx
                  rcases List.mem_cons.1 hx with hh | hx2
                  · subst hh; decide
                  rcases List.mem_cons.1 hx2 with hh | hx3
                  · subst hh; decide
                  rcases List.mem_append.1 hx3 with hm | hm
                  · exact hnp x hm
                  · exact hn3 x hm
            · rw [if_neg hu] at h
              rcases eE : escCharFor e with _ | d
              · rw [eE] at h; simp at h
              · rw [eE] at h
                dsimp only at h
                obtain ⟨content2, hX, hc⟩ := map_cons_eq_some _ _ _ _ h
                obtain ⟨raw2, hcs2, hn2⟩ := ih cs2 content2 rest hX
                refine ⟨'\\' :: e :: raw2, ?_, ?_⟩
                · rw [hcs2]
                  simp
                · intro x hx
                  rcases List.mem_cons.1 hx with hh | hx2
                  · subst hh; decide
                  rcases List.mem_cons.1 hx2 with hh | hx3
                  · subst hh; exact escCharFor_ne_newline _ _ eE
                  · exact hn2 x hx3
        · rw [if_neg hb] at h
          by_cases hc0 : c.toNat < 0x20
          · rw [if_pos hc0] at h
            simp at h
          · rw [if_neg hc0] at h
            obtain ⟨content2, hX, hcc⟩ := map_cons_eq_some _ _ _ _ h
            obtain ⟨raw2, hcs1, hn2⟩ := ih cs1 content2 rest hX
            refine ⟨c :: raw2, ?_, ?_⟩
            · rw [hcs1]
              rfl
            · intro x hx
              rcases List.mem_cons.1 hx with hh | hx2
              · subst hh
                intro hxx
                subst hxx
                exact hc0 (by decide)
              · exact hn2 x hx2

theorem tokenizeF_backtick (fuel : Nat) (cs : List Char) :
    tokenizeF fuel ('\x60' :: cs) = none := by
  cases fuel with
  | zero => rfl
  | succ fuel => rfl

theorem pairBad_eq_false_of_ne (c : Char) (hc1 : c ≠ '\n') (hc2 : c ≠ 'n') (b : Char) :
    pairBad c b = false := by
  rcases hp : pairBad c b with _ | _
  · rfl
  · rcases (pairBad_true_iff c b).1 hp with ⟨h, _⟩ | ⟨h, _⟩
    · exact absurd h hc1
    · exact absurd h hc2

theorem isNumChar_not_newline_n (a : Char) (h : isNumChar a = true) : a ≠ '\n' ∧ a ≠ 'n' := by
  constructor <;> intro he <;> subst he <;> simp [isNumChar] at h

theorem isJsonWs_char (c : Char) (h : isJsonWs c = true) :
    c = ' ' ∨ c = '\t' ∨ c = '\n' ∨ c = '\x0d' := by
  simp only [isJsonWs, Bool.or_eq_true, beq_iff_eq] at h
  tauto

theorem punctToken_ne (c : Char) (t : JToken) (h : punctToken c = some t) :
    c ≠ '\n' ∧ c ≠ 'n' := by
  constructor <;> intro he <;> subst he <;> simp [punctToken] at h

theorem lexKeyword_span (c : Char) (cs : List Char) (t : JToken) (rest : List Char)
    (h : lexKeyword c cs = some (t, rest)) :
    c :: cs = ['n', 'u', 'l', 'l'] ++ rest ∨ c :: cs = ['t', 'r', 'u', 'e'] ++ rest ∨
      c :: cs = ['f', 'a', 'l', 's', 'e'] ++ rest := by
  unfold lexKeyword at h
  by_cases h1 : c = 'n'
  · rw [if_pos h1] at h
    subst h1
    split at h
    case _ rest2 =>
      simp only [Option.some.injEq, Prod.mk.injEq] at h
      rw [h.2]
      exact Or.inl rfl
    case _ =>
      exact Option.noConfusion h
  · rw [if_neg h1] at h
    by_cases h2 : c = 't'
    · rw [if_pos h2] at h
      subst h2
      split at h
      case _ rest2 =>
        simp only [Option.some.injEq, Prod.mk.injEq] at h
        rw [h.2]
        exact Or.inr (Or.inl rfl)
      case _ =>
        exact Option.noConfusion h
    · rw [if_neg h2] at h
      by_cases h3 : c = 'f'
      · rw [if_pos h3] at h
        subst h3
        split at h
        case _ rest2 =>
          simp only [Option.some.injEq, Prod.mk.injEq] at h
          rw [h.2]
          exact Or.inr (Or.inr rfl)
        case _ =>
          exact Option.noConfusion h
      · rw [if_neg h3] at h
        exact Option.noConfusion h

theorem tokenizeF_badPairFree : ∀ fuel cs ts, tokenizeF fuel cs = some ts →
    badPairFree cs = true := by
  intro fuel
  induction fuel with
  | zero =>
    intro cs ts h
    match cs with
    | [] => rfl
    | c :: cs1 => exact Option.noConfusion h
  | succ fuel ih =>
    intro cs ts h
    match cs with
    | [] => rfl
    | c :: cs1 =>
      rw [tokenizeF.eq_def] at h
      dsimp only at h
      by_cases hws : isJsonWs c
      · rw [if_pos hws] at h
        apply badPairFree_cons c cs1 (ih cs1 ts h)
        intro b hb
        rcases hp : pairBad c b with _ | _
        · rfl
        · exfalso
          rcases (pairBad_true_iff c b).1 hp with ⟨hc, hbb⟩ | ⟨hc, hbb⟩
          · subst hbb
            match cs1, hb, h with
            | b2 :: t2, hb, h =>
              simp only [List.head?, Option.some.injEq] at hb
              subst hb
              rw [tokenizeF_backtick] at h
              exact Option.noConfusion h
          · subst hc
            rcases isJsonWs_char _ hws with h1 | h1 | h1 | h1 <;> exact absurd h1 (by decide)
      · rw [if_neg hws] at h
        rcases hP : punctToken c with _ | t
        · rw [hP] at h
          dsimp only at h
          by_cases hq : c = '\"'
          · subst hq
            rw [if_pos rfl] at h
            rcases hS : lexStringCharsF (cs1.length + 1) cs1 with _ | ⟨content, rest⟩
            · rw [hS] at h; exact Option.noConfusion h
            · rw [hS] at h
              dsimp only at h
              obtain ⟨ts2, hts, _⟩ := Option.map_eq_some'.1 h
              obtain ⟨raw, hcs1, hraw⟩ := lexStringCharsF_span _ cs1 content rest hS
              rw [hcs1]
              have hsplit : ('\"' :: (raw ++ '\"' :: rest)) =
                  ('\"' :: raw ++ ['\"']) ++ rest := by simp
              rw [hsplit]
              apply badPairFree_append
              · apply badPairFree_of_no_newline
                intro x hx
                rcases List.mem_cons.1 hx with hh | hx2
                · subst hh; decide
                rcases List.mem_append.1 hx2 with hm | hm
                · exact hraw x hm
                · simp only [List.mem_singleton] at hm
                  subst hm; decide
              · exact ih rest ts2 hts
              · intro a b hl hh
                have hga : ('\"' :: raw ++ ['\"']).getLast? = some '\"' :=
                  List.getLast?_concat _
                rw [hga] at hl
                injection hl with hl
                subst hl
                exact pairBad_eq_false_of_ne _ (by decide) (by decide) b
          · rw [if_neg hq] at h
            by_cases hnum : c = '-' ∨ c.isDigit
            · rw [if_pos hnum] at h
              rcases hN : lexNumber (c :: cs1) with _ | ⟨raw, rest⟩
              · rw [hN] at h; exact Option.noConfusion h
              · rw [hN] at h
                dsimp only at h
                obtain ⟨ts2, hts, _⟩ := Option.map_eq_some'.1 h
                obtain ⟨hsp, hnc⟩ := lexNumber_span (c :: cs1) raw rest hN
                rw [hsp]
                apply badPairFree_append
                · apply badPairFree_of_no_newline
                  intro x hx hxn
                  subst hxn
                  exact absurd (hnc _ hx) (by decide)
                · exact ih rest ts2 hts
                · intro a b hl hh
                  have ha : a ∈ raw :=
                    List.mem_of_mem_getLast? (Option.mem_def.2 hl)
                  obtain ⟨ha1, ha2⟩ := isNumChar_not_newline_n a (hnc a ha)
                  exact pairBad_eq_false_of_ne a ha1 ha2 b
            · rw [if_neg hnum] at h
              rcases hK : lexKeyword c cs1 with _ | ⟨t, rest⟩
              · rw [hK] at h; exact Option.noConfusion h
              · rw [hK] at h
                dsimp only at h
                obtain ⟨ts2, hts, _⟩ := Option.map_eq_some'.1 h
                rcases lexKeyword_span c cs1 t rest hK with hsp | hsp | hsp <;> rw [hsp]
                · apply badPairFree_append _ _ (by decide) (ih rest ts2 hts)
                  intro a b hl hh
                  rw [show (['n', 'u', 'l', 'l'] : List Char).getLast? = some 'l' from rfl] at hl
                  injection hl with hl
                  subst hl
                  exact pairBad_eq_false_of_ne _ (by decide) (by decide) b
                · apply badPairFree_append _ _ (by decide) (ih rest ts2 hts)
                  intro a b hl hh
                  rw [show (['t', 'r', 'u', 'e'] : List Char).getLast? = some 'e' from rfl] at hl
                  injection hl with hl
                  subst hl
                  exact pairBad_eq_false_of_ne _ (by decide) (by decide) b
                · apply badPairFree_append _ _ (by decide) (ih rest ts2 hts)
                  intro a b hl hh
                  rw [show (['f', 'a', 'l', 's', 'e'] : List Char).getLast? = some 'e' from rfl] at hl
                  injection hl with hl
                  subst hl
                  exact pairBad_eq_false_of_ne _ (by decide) (by decide) b
        · rw [hP] at h
          dsimp only at h
          obtain ⟨ts2, hts, _⟩ := Option.map_eq_some'.1 h
          obtain ⟨hc1, hc2⟩ := punctToken_ne c t hP
          exact badPairFree_cons _ cs1 (ih cs1 ts2 hts)
            (fun b _ => pairBad_eq_false_of_ne _ hc1 hc2 b)

theorem startsWithSeq_split : ∀ pat l, startsWithSeq l pat = true → ∃ suf, l = pat ++ suf := by
  intro pat
  induction pat with
  | nil => intro l _; exact ⟨l, rfl⟩
  | cons p ps ih =>
    intro l h
    match l, h with
    | [], h => exact absurd h (by simp [startsWithSeq])
    | a :: l2, h =>
      rw [startsWithSeq] at h
      simp only [Bool.and_eq_true, beq_iff_eq] at h
      obtain ⟨h1, h2⟩ := h
      subst h1
      obtain ⟨suf, hs⟩ := ih l2 h2
      exact ⟨suf, by rw [hs]; rfl⟩

theorem containsSeq_split : ∀ l pat, containsSeq l pat = true →
    ∃ pre suf, l = pre ++ (pat ++ suf) := by
  intro l
  induction l with
  | nil =>
    intro pat h
    rw [containsSeq] at h
    rw [List.isEmpty_iff] at h
    subst h
    exact ⟨[], [], rfl⟩
  | cons a l2 ih =>
    intro pat h
    rw [containsSeq] at h
    simp only [Bool.or_eq_true] at h
    rcases h with h | h
    · obtain ⟨suf, hs⟩ := startsWithSeq_split pat (a :: l2) h
      exact ⟨[], suf, by rw [hs]; rfl⟩
    · obtain ⟨pre, suf, hs⟩ := ih pat h
      exact ⟨a :: pre, suf, by rw [hs]; rfl⟩

theorem badPairFree_no_fences (s : List Char) (hfree : badPairFree s = true) :
    containsSeq s fenceOpenChars = false ∧ containsSeq s fenceCloseChars = false := by
  constructor
  · rcases hc : containsSeq s fenceOpenChars with _ | _
    · rfl
    · exfalso
      obtain ⟨pre, suf, hs⟩ := containsSeq_split s fenceOpenChars hc
      rw [hs] at hfree
      have h2 := badPairFree_append_right pre _ hfree
      have hre : fenceOpenChars ++ suf =
          ['\x60', '\x60', '\x60', 'j', 's', 'o'] ++ ('n' :: '\n' :: suf) := rfl
      rw [hre] at h2
      have h3 := badPairFree_append_right _ _ h2
      have h4 := badPairFree_head 'n' '\n' suf h3
      exact absurd h4 (by decide)
  · rcases hc : containsSeq s fenceCloseChars with _ | _
    · rfl
    · exfalso
      obtain ⟨pre, suf, hs⟩ := containsSeq_split s fenceCloseChars hc
      rw [hs] at hfree
      have h2 := badPairFree_append_right pre _ hfree
      have hre : fenceCloseChars ++ suf = '\n' :: '\x60' :: ('\x60' :: '\x60' :: suf) := rfl
      rw [hre] at h2
      have h4 := badPairFree_head '\n' '\x60' _ h2
      exact absurd h4 (by decide)

theorem jsonParse_no_fences (s : List Char) (hv : (jsonParse s).isSome = true) :
    containsSeq s fenceOpenChars = false ∧ containsSeq s fenceCloseChars = false := by
  unfold jsonParse at hv
  rcases hT : tokenizeF (s.length + 1) s with _ | ts
  · rw [hT] at hv; simp at hv
  · exact badPairFree_no_fences s (tokenizeF_badPairFree _ s ts hT)

/-- C9 (counterexample to the claim as stated): there is no model output
that is syntactically valid JSON and contains an occurrence of the
opening fence or of the closing fence - anywhere, hence in particular
inside a string literal - on which the normalizer's result could differ
from parsing the original text: each fence includes a raw newline, which
valid JSON admits neither inside a string literal nor adjacent to a
backtick or after the letter n outside one. -/
theorem C9_no_valid_json_contains_fence :
    (∃ s : String, (jsonParse s.data).isSome = true ∧
      (containsSeq s.data fenceOpenChars = true ∨
        containsSeq s.data fenceCloseChars = true) ∧
      ServerJs.cleanAndParse s ≠ jsonParse s.data) = False := by
  apply eq_false
  rintro ⟨s, hv, hc, _⟩
  obtain ⟨h1, h2⟩ := jsonParse_no_fences s.data hv
  rcases hc with hc | hc
  · rw [h1] at hc; exact Bool.noConfusion hc
  · rw [h2] at hc; exact Bool.noConfusion hc

/-- C9 (amended): the fence replacement is global - every left-to-right
occurrence of the opening or closing fence in the trimmed model output
is deleted, not only a single surrounding wrapper pair: an output with
two fenced blocks loses all four fences (and the mutated remainder then
fails to parse), and a closing fence is deleted at every position, not
only at the end.  No syntactically valid JSON output contains either
fence, so this global deletion is observable only on fenced or otherwise
invalid outputs. -/
theorem C9_fence_replacement_is_global :
    ServerJs.stripFences
        ("\x60\x60\x60json\n[1]\n\x60\x60\x60\n\x60\x60\x60json\n[2]\n\x60\x60\x60".data) =
      "[1]json\n[2]".data ∧
    ServerJs.cleanAndParse
        "\x60\x60\x60json\n[1]\n\x60\x60\x60\n\x60\x60\x60json\n[2]\n\x60\x60\x60" = none ∧
    ServerJs.stripFences ("a\n\x60\x60\x60b\n\x60\x60\x60c".data) = "abc".data :=
  ⟨rfl, rfl, rfl⟩

theorem extractTextFromPdf_calls {β : Type} (axiosGet : String → Except String β)
    (pdfParse : β → Except String String) (url : String) :
    (ServerJs.extractTextFromPdf axiosGet pdfParse url).2 = [Call.fetch url] := by
  unfold ServerJs.extractTextFromPdf
  split
  · rfl
  · split <;> rfl

theorem generateSummary_calls (genContent : String → Except String String)
    (text title : String) :
    (ServerJs.generateSummary genContent text title).2 =
      [Call.generate (ServerJs.buildPrompt text title)] := by
  unfold ServerJs.generateSummary
  dsimp only
  split
  · rfl
  · split <;> rfl

theorem handle_valid_eq {β : Type} (axiosGet : String → Except String β)
    (pdfParse : β → Except String String) (genContent : String → Except String String)
    (url title : String) (h1 : url ≠ "") (h2 : title ≠ "") :
    ServerJs.handleSummarize axiosGet pdfParse genContent (SummaryRequest.mk (some url) (some title)) =
      match ServerJs.extractTextFromPdf axiosGet pdfParse url with
      | (Except.error e, calls) => (ServerJs.catchResponse e, calls)
      | (Except.ok documentText, calls) =>
        match ServerJs.generateSummary genContent documentText title with
        | (Except.error e, calls2) => (ServerJs.catchResponse e, calls ++ calls2)
        | (Except.ok summary, calls2) => (HttpResponse.mk 200 summary, calls ++ calls2) := by
  unfold ServerJs.handleSummarize
  simp only
  rw [if_neg]
  rintro (h | h) <;> contradiction

theorem handle_fetch_error {β : Type} (axiosGet : String → Except String β)
    (pdfParse : β → Except String String) (genContent : String → Except String String)
    (url title : String) (m : String) (h1 : url ≠ "") (h2 : title ≠ "")
    (hf : (ServerJs.extractTextFromPdf axiosGet pdfParse url).1 = Except.error m) :
    ServerJs.handleSummarize axiosGet pdfParse genContent (SummaryRequest.mk (some url) (some title)) =
      (ServerJs.catchResponse m, [Call.fetch url]) := by
  rw [handle_valid_eq axiosGet pdfParse genContent url title h1 h2]
  have hc := extractTextFromPdf_calls axiosGet pdfParse url
  rcases hE : ServerJs.extractTextFromPdf axiosGet pdfParse url with ⟨res, calls⟩
  rw [hE] at hf hc
  dsimp only at hf hc
  rw [hf, hc]

theorem handle_gen_result {β : Type} (axiosGet : String → Except String β)
    (pdfParse : β → Except String String) (genContent : String → Except String String)
    (url title text : String) (h1 : url ≠ "") (h2 : title ≠ "")
    (hf : (ServerJs.extractTextFromPdf axiosGet pdfParse url).1 = Except.ok text) :
    ServerJs.handleSummarize axiosGet pdfParse genContent (SummaryRequest.mk (some url) (some title)) =
      (match (ServerJs.generateSummary genContent text title).1 with
       | Except.error e => ServerJs.catchResponse e
       | Except.ok summary => HttpResponse.mk 200 summary,
       [Call.fetch url, Call.generate (ServerJs.buildPrompt text title)]) := by
  rw [handle_valid_eq axiosGet pdfParse genContent url title h1 h2]
  have hc := extractTextFromPdf_calls axiosGet pdfParse url
  rcases hE : ServerJs.extractTextFromPdf axiosGet pdfParse url with ⟨res, calls⟩
  rw [hE] at hf hc
  dsimp only at hf hc
  rw [hf, hc]
  dsimp only
  have hg := generateSummary_calls genContent text title
  rcases hG : ServerJs.generateSummary genContent text title with ⟨gres, gcalls⟩
  rw [hG] at hg
  dsimp only at hg
  rw [hg]
  cases gres <;> rfl

/-- C1: a request whose url or title is absent or the empty string is
answered with status 400 and the fixed error body, and no pipeline stage
runs: the handler makes no outbound call, whatever the collaborators
would do. -/
theorem C1_missing_fields_rejected_without_calls {β : Type}
    (axiosGet : String → Except String β) (pdfParse : β → Except String String)
    (genContent : String → Except String String) (body : SummaryRequest)
    (h : body.url = none ∨ body.url = some "" ∨ body.title = none ∨ body.title = some "") :
    ServerJs.handleSummarize axiosGet pdfParse genContent body =
      (HttpResponse.mk 400
        (Json.obj [("error", Json.str "Missing \x27url\x27 or \x27title\x27 in request body.")]),
       []) := by
  obtain ⟨u, t⟩ := body
  unfold ServerJs.handleSummarize
  rcases h with h | h | h | h <;> simp only at h <;> subst h
  · rfl
  · cases t with
    | none => rfl
    | some s => simp [ServerJs.missingFieldsResponse]
  · cases u with
    | none => rfl
    | some s => simp [ServerJs.missingFieldsResponse]
  · cases u with
    | none => rfl
    | some s => simp [ServerJs.missingFieldsResponse]

theorem C1_witness :
    ((SummaryRequest.mk none (some "t") : SummaryRequest).url = none ∨
      (SummaryRequest.mk none (some "t") : SummaryRequest).url = some "" ∨
      (SummaryRequest.mk none (some "t") : SummaryRequest).title = none ∨
      (SummaryRequest.mk none (some "t") : SummaryRequest).title = some "") ∧
    ServerJs.handleSummarize (fun _ => Except.ok ()) (fun _ => Except.ok "")
      (fun _ => Except.ok "") (SummaryRequest.mk none (some "t")) =
      (HttpResponse.mk 400
        (Json.obj [("error", Json.str "Missing \x27url\x27 or \x27title\x27 in request body.")]),
       []) :=
  ⟨Or.inl rfl,
   C1_missing_fields_rejected_without_calls (fun _ => Except.ok ()) (fun _ => Except.ok "")
     (fun _ => Except.ok "") (SummaryRequest.mk none (some "t")) (Or.inl rfl)⟩

/-- C2: the generation prompt is the fixed instruction template followed
by exactly the first min(length, 15000) characters of the extracted text
(a prefix; everything past offset 15000 is discarded), so its length
never exceeds the template length plus 15000. -/
theorem C2_prompt_truncation (text title : String) :
    (∃ t : String, ServerJs.buildPrompt text title = ServerJs.promptTemplate ++ t ∧
       t.data = text.data.take 15000 ∧ t.length = min text.length 15000) ∧
    (ServerJs.buildPrompt text title).length ≤ ServerJs.promptTemplate.length + 15000 := by
  constructor
  · refine ⟨jsSlice text 15000, rfl, rfl, ?_⟩
    show (text.data.take 15000).length = min text.length 15000
    rw [List.length_take, Nat.min_comm]
    rfl
  · show (ServerJs.promptTemplate ++ jsSlice text 15000).length ≤ _
    rw [String.length_append]
    have : (jsSlice text 15000).length ≤ 15000 := by
      show (text.data.take 15000).length ≤ 15000
      rw [List.length_take]
      exact Nat.min_le_left _ _
    omega

/-- C5: the response normalizer strips surrounding whitespace and the
JSON-tagged code-fence wrapper and parses the remainder, returning the
exact object with no field added, removed or altered: shown on the
fenced gist/keyPoints/relevance object of the spec, on the same output
with surrounding whitespace, and on an object with different fields. -/
theorem C5_normalizer_strips_fences_and_parses :
    ServerJs.cleanAndParse "\x60\x60\x60json\n\x7b\"gist\":\"a\",\"keyPoints\":\"<ul></ul>\",\"relevance\":\"b\"\x7d\n\x60\x60\x60" =
      some (Json.obj [("gist", Json.str "a"), ("keyPoints", Json.str "<ul></ul>"),
        ("relevance", Json.str "b")]) ∧
    ServerJs.cleanAndParse "  \x60\x60\x60json\n\x7b\"gist\":\"a\",\"keyPoints\":\"<ul></ul>\",\"relevance\":\"b\"\x7d\n\x60\x60\x60  " =
      some (Json.obj [("gist", Json.str "a"), ("keyPoints", Json.str "<ul></ul>"),
        ("relevance", Json.str "b")]) ∧
    ServerJs.cleanAndParse "\x60\x60\x60json\n\x7b\"extra\":[1,true,null]\x7d\n\x60\x60\x60" =
      some (Json.obj [("extra", Json.arr [Json.num "1", Json.bool true, Json.null])]) :=
  ⟨rfl, rfl, rfl⟩

/-- C7: the generation prompt, and with it the whole generateSummary
input to the model, does not depend on the title: two requests differing
only in their (non-empty) titles produce the same prompt, the same model
call and the same response. -/
theorem C7_prompt_title_independent {β : Type}
    (axiosGet : String → Except String β) (pdfParse : β → Except String String)
    (genContent : String → Except String String) (url text t1 t2 : String)
    (h1 : t1 ≠ "") (h2 : t2 ≠ "") :
    ServerJs.buildPrompt text t1 = ServerJs.buildPrompt text t2 ∧
    ServerJs.generateSummary genContent text t1 = ServerJs.generateSummary genContent text t2 ∧
    ServerJs.handleSummarize axiosGet pdfParse genContent (SummaryRequest.mk (some url) (some t1)) =
      ServerJs.handleSummarize axiosGet pdfParse genContent (SummaryRequest.mk (some url) (some t2)) := by
  refine ⟨rfl, rfl, ?_⟩
  by_cases hu : url = ""
  · subst hu
    unfold ServerJs.handleSummarize
    simp
  · rw [handle_valid_eq axiosGet pdfParse genContent url t1 hu h1,
        handle_valid_eq axiosGet pdfParse genContent url t2 hu h2]
    rfl

theorem C7_witness :
    ("t1" : String) ≠ "" ∧ ("t2" : String) ≠ "" ∧
    ServerJs.handleSummarize (fun _ => Except.ok ()) (fun _ => Except.ok "doc")
        (fun _ => Except.ok "\x7b\x7d") (SummaryRequest.mk (some "u") (some "t1")) =
      ServerJs.handleSummarize (fun _ => Except.ok ()) (fun _ => Except.ok "doc")
        (fun _ => Except.ok "\x7b\x7d") (SummaryRequest.mk (some "u") (some "t2")) :=
  ⟨by decide, by decide,
   (C7_prompt_title_independent (fun _ => Except.ok ()) (fun _ => Except.ok "doc")
     (fun _ => Except.ok "\x7b\x7d") "u" "doc" "t1" "t2" (by decide) (by decide)).2.2⟩

/-- C8: the pipeline is deterministic and stateless: the handler is a
pure function of the request and the collaborator behaviours, so two
invocations on identical inputs return the same response, which
serializes to byte-identical JSON; no invocation mutates state another
could observe. -/
theorem C8_pipeline_deterministic {β : Type}
    (axiosGet : String → Except String β) (pdfParse : β → Except String String)
    (genContent : String → Except String String) (body : SummaryRequest) :
    (ServerJs.runTwice axiosGet pdfParse genContent body).1 =
      (ServerJs.runTwice axiosGet pdfParse genContent body).2 ∧
    Json.serialize (ServerJs.runTwice axiosGet pdfParse genContent body).1.1.body =
      Json.serialize (ServerJs.runTwice axiosGet pdfParse genContent body).2.1.body := by
  have h : (ServerJs.runTwice axiosGet pdfParse genContent body).1 =
      (ServerJs.runTwice axiosGet pdfParse genContent body).2 := rfl
  exact ⟨h, congrArg (fun r => Json.serialize r.1.body) h⟩

theorem stripFences_eq : ∀ l, ServerCjs.stripFences l = ServerJs.stripFences l := by
  intro l
  induction l using ServerJs.stripFences.induct with
  | case1 rest ih => rw [ServerJs.stripFences, ServerCjs.stripFences, ih]
  | case2 rest ih => rw [ServerJs.stripFences, ServerCjs.stripFences, ih]
  | case3 c rest h1 h2 ih =>
    rw [ServerJs.stripFences, ServerCjs.stripFences, ih] <;> assumption
  | case4 => rfl

theorem cleanAndParse_eq : ∀ raw, ServerCjs.cleanAndParse raw = ServerJs.cleanAndParse raw := by
  intro raw
  unfold ServerJs.cleanAndParse ServerCjs.cleanAndParse
  rw [stripFences_eq]

theorem generateSummary_eq : ∀ gC text title,
    ServerCjs.generateSummary gC text title = ServerJs.generateSummary gC text title := by
  intro gC text title
  unfold ServerJs.generateSummary ServerCjs.generateSummary
  simp only [cleanAndParse_eq]
  rfl

/-- C10: the /summarize handlers of server.js and server.cjs are
extensionally equal: for every request body and every behaviour of the
fetch, extraction and model collaborators they produce the same response
and the same outbound calls (the two files differ only in bind host and
logging). -/
theorem C10_js_cjs_equivalent {β : Type}
    (axiosGet : String → Except String β) (pdfParse : β → Except String String)
    (genContent : String → Except String String) (body : SummaryRequest) :
    ServerJs.handleSummarize axiosGet pdfParse genContent body =
      ServerCjs.handleSummarize axiosGet pdfParse genContent body := by
  obtain ⟨u, t⟩ := body
  unfold ServerJs.handleSummarize ServerCjs.handleSummarize
  simp only [generateSummary_eq]
  rfl

/-- C3: every pipeline failure caught by the handler yields status 500
with the fixed error field and a details field chosen by whether the
failing error message contains the substring "JSON": shown for a failing
fetch/extraction stage, for a failing model call, and for a model
response the normalizer cannot parse as JSON, whose platform SyntaxError
message mentions JSON and therefore always yields the AI-structure
detail. -/
theorem C3_error_classification {β : Type}
    (axiosGet : String → Except String β) (pdfParse : β → Except String String)
    (genContent : String → Except String String) (url title : String)
    (h1 : url ≠ "") (h2 : title ≠ "") :
    (∀ m, (ServerJs.extractTextFromPdf axiosGet pdfParse url).1 = Except.error m →
      (ServerJs.handleSummarize axiosGet pdfParse genContent
          (SummaryRequest.mk (some url) (some title))).1 =
        HttpResponse.mk 500
          (Json.obj [("error", Json.str "Failed to process document or generate summary."),
            ("details", Json.str (if containsSeq m.data "JSON".data
              then "AI structure error or malformed response."
              else "External PDF access failure."))])) ∧
    (∀ text m, (ServerJs.extractTextFromPdf axiosGet pdfParse url).1 = Except.ok text →
      genContent (ServerJs.buildPrompt text title) = Except.error m →
      (ServerJs.handleSummarize axiosGet pdfParse genContent
          (SummaryRequest.mk (some url) (some title))).1 =
        HttpResponse.mk 500
          (Json.obj [("error", Json.str "Failed to process document or generate summary."),
            ("details", Json.str (if containsSeq m.data "JSON".data
              then "AI structure error or malformed response."
              else "External PDF access failure."))])) ∧
    (∀ text raw, (ServerJs.extractTextFromPdf axiosGet pdfParse url).1 = Except.ok text →
      genContent (ServerJs.buildPrompt text title) = Except.ok raw →
      ServerJs.cleanAndParse raw = none →
      (ServerJs.handleSummarize axiosGet pdfParse genContent
          (SummaryRequest.mk (some url) (some title))).1 =
        HttpResponse.mk 500
          (Json.obj [("error", Json.str "Failed to process document or generate summary."),
            ("details", Json.str "AI structure error or malformed response.")])) := by
  refine ⟨?_, ?_, ?_⟩
  · intro m hf
    rw [handle_fetch_error axiosGet pdfParse genContent url title m h1 h2 hf]
    rfl
  · intro text m hf hg
    rw [handle_gen_result axiosGet pdfParse genContent url title text h1 h2 hf]
    have hgen : (ServerJs.generateSummary genContent text title).1 = Except.error m := by
      unfold ServerJs.generateSummary
      dsimp only
      rw [hg]
    dsimp only
    rw [hgen]
    rfl
  · intro text raw hf hg hp
    rw [handle_gen_result axiosGet pdfParse genContent url title text h1 h2 hf]
    have hgen : (ServerJs.generateSummary genContent text title).1 =
        Except.error jsonParseErrorMessage := by
      unfold ServerJs.generateSummary
      dsimp only
      rw [hg]
      dsimp only
      rw [hp]
    dsimp only
    rw [hgen]
    rfl

theorem C3_witness :
    ("u" : String) ≠ "" ∧ ("t" : String) ≠ "" ∧
    (ServerJs.handleSummarize (fun _ => Except.ok ()) (fun _ => Except.ok "doc")
        (fun _ => Except.ok "not json") (SummaryRequest.mk (some "u") (some "t"))).1 =
      HttpResponse.mk 500
        (Json.obj [("error", Json.str "Failed to process document or generate summary."),
          ("details", Json.str "AI structure error or malformed response.")]) :=
  ⟨by decide, by decide,
   (C3_error_classification (fun _ => Except.ok ()) (fun _ => Except.ok "doc")
       (fun _ => Except.ok "not json") "u" "t" (by decide) (by decide)).2.2
     "doc" "not json" rfl rfl rfl⟩

/-- C4: a fetch failure of any of the kinds the spec names (unreachable
host, connection refused, DNS failure, non-2xx status) produces the 500
response whose details is the fetch-failure string, never the
generation-failure string: none of the runtime messages of those
failures contains the substring "JSON"; the same holds for any failure
message not containing "JSON". -/
theorem C4_fetch_failure_detail {β : Type}
    (axiosGet : String → Except String β) (pdfParse : β → Except String String)
    (genContent : String → Except String String) (url title : String) (k : FetchFailure)
    (h1 : url ≠ "") (h2 : title ≠ "")
    (hf : (ServerJs.extractTextFromPdf axiosGet pdfParse url).1 =
      Except.error (axiosErrorMessage k)) :
    (ServerJs.handleSummarize axiosGet pdfParse genContent
        (SummaryRequest.mk (some url) (some title))).1 =
      HttpResponse.mk 500
        (Json.obj [("error", Json.str "Failed to process document or generate summary."),
          ("details", Json.str "External PDF access failure.")]) ∧
    (ServerJs.handleSummarize axiosGet pdfParse genContent
        (SummaryRequest.mk (some url) (some title))).1 ≠
      HttpResponse.mk 500
        (Json.obj [("error", Json.str "Failed to process document or generate summary."),
          ("details", Json.str "AI structure error or malformed response.")]) := by
  rw [handle_fetch_error axiosGet pdfParse genContent url title (axiosErrorMessage k) h1 h2 hf]
  have hm : containsSeq (axiosErrorMessage k).data "JSON".data = false := by
    cases k <;> decide
  constructor
  · unfold ServerJs.catchResponse
    rw [hm]
    rfl
  · unfold ServerJs.catchResponse
    rw [hm]
    intro hcontra
    simp at hcontra

theorem C4_witness :
    ("u" : String) ≠ "" ∧ ("t" : String) ≠ "" ∧
    ((ServerJs.extractTextFromPdf
        (fun _ => Except.error (axiosErrorMessage FetchFailure.dnsFailure) :
          String → Except String Unit)
        (fun _ => Except.ok "") "u").1 =
      Except.error (axiosErrorMessage FetchFailure.dnsFailure)) ∧
    (ServerJs.handleSummarize
        (fun _ => Except.error (axiosErrorMessage FetchFailure.dnsFailure) :
          String → Except String Unit)
        (fun _ => Except.ok "") (fun _ => Except.ok "")
        (SummaryRequest.mk (some "u") (some "t"))).1 =
      HttpResponse.mk 500
        (Json.obj [("error", Json.str "Failed to process document or generate summary."),
          ("details", Json.str "External PDF access failure.")]) :=
  ⟨by decide, by decide, rfl,
   (C4_fetch_failure_detail
       (fun _ => Except.error (axiosErrorMessage FetchFailure.dnsFailure) :
         String → Except String Unit)
       (fun _ => Except.ok "") (fun _ => Except.ok "") "u" "t" FetchFailure.dnsFailure
       (by decide) (by decide) rfl).1⟩

/-- C6: for a validated request the stages run strictly in sequence with
first-failure short-circuit: the recorded outbound calls are the fetch,
followed by at most one generation call; if the fetch/extraction stage
fails the generation call never happens and the 500 error response is
returned; every outcome is a single response, a 200 with the parsed
summary or the fixed 500 error shape with no partial result; and on any
request whatsoever the status is one of 200, 400 and 500. -/
theorem C6_sequential_short_circuit {β : Type}
    (axiosGet : String → Except String β) (pdfParse : β → Except String String)
    (genContent : String → Except String String) (url title : String)
    (h1 : url ≠ "") (h2 : title ≠ "") :
    (∀ m, (ServerJs.extractTextFromPdf axiosGet pdfParse url).1 = Except.error m →
      (ServerJs.handleSummarize axiosGet pdfParse genContent
          (SummaryRequest.mk (some url) (some title))).2 = [Call.fetch url] ∧
      (ServerJs.handleSummarize axiosGet pdfParse genContent
          (SummaryRequest.mk (some url) (some title))).1 = ServerJs.catchResponse m) ∧
    (∃ rest, (ServerJs.handleSummarize axiosGet pdfParse genContent
        (SummaryRequest.mk (some url) (some title))).2 = Call.fetch url :: rest ∧
      (rest = [] ∨ ∃ p, rest = [Call.generate p])) ∧
    ((∃ j, (ServerJs.handleSummarize axiosGet pdfParse genContent
        (SummaryRequest.mk (some url) (some title))).1 = HttpResponse.mk 200 j) ∨
     (∃ m, (ServerJs.handleSummarize axiosGet pdfParse genContent
        (SummaryRequest.mk (some url) (some title))).1 = ServerJs.catchResponse m)) ∧
    (∀ body : SummaryRequest,
      (ServerJs.handleSummarize axiosGet pdfParse genContent body).1.status = 200 ∨
      (ServerJs.handleSummarize axiosGet pdfParse genContent body).1.status = 400 ∨
      (ServerJs.handleSummarize axiosGet pdfParse genContent body).1.status = 500) := by
  refine ⟨?_, ?_, ?_, ?_⟩
  · intro m hf
    rw [handle_fetch_error axiosGet pdfParse genContent url title m h1 h2 hf]
    exact ⟨rfl, rfl⟩
  · rcases hE : (ServerJs.extractTextFromPdf axiosGet pdfParse url).1 with m | text
    · rw [handle_fetch_error axiosGet pdfParse genContent url title m h1 h2 hE]
      exact ⟨[], rfl, Or.inl rfl⟩
    · rw [handle_gen_result axiosGet pdfParse genContent url title text h1 h2 hE]
      exact ⟨[Call.generate (ServerJs.buildPrompt text title)], rfl,
        Or.inr ⟨ServerJs.buildPrompt text title, rfl⟩⟩
  · rcases hE : (ServerJs.extractTextFromPdf axiosGet pdfParse url).1 with m | text
    · rw [handle_fetch_error axiosGet pdfParse genContent url title m h1 h2 hE]
      exact Or.inr ⟨m, rfl⟩
    · rw [handle_gen_result axiosGet pdfParse genContent url title text h1 h2 hE]
      rcases hG : (ServerJs.generateSummary genContent text title).1 with e | j
      · exact Or.inr ⟨e, rfl⟩
      · exact Or.inl ⟨j, rfl⟩
  · intro body
    obtain ⟨u, t⟩ := body
    cases u with
    | none => exact Or.inr (Or.inl rfl)
    | some u' =>
      cases t with
      | none => exact Or.inr (Or.inl rfl)
      | some t' =>
        by_cases hu : u' = ""
        · subst hu
          unfold ServerJs.handleSummarize
          simp [ServerJs.missingFieldsResponse]
        · by_cases ht : t' = ""
          · subst ht
            unfold ServerJs.handleSummarize
            simp [ServerJs.missingFieldsResponse]
          · rcases hE : (ServerJs.extractTextFromPdf axiosGet pdfParse u').1 with m | text
            · rw [handle_fetch_error axiosGet pdfParse genContent u' t' m hu ht hE]
              exact Or.inr (Or.inr rfl)
            · rw [handle_gen_result axiosGet pdfParse genContent u' t' text hu ht hE]
              rcases hG : (ServerJs.generateSummary genContent text t').1 with e | j
              · exact Or.inr (Or.inr rfl)
              · exact Or.inl rfl

theorem C6_witness :
    ("u" : String) ≠ "" ∧ ("t" : String) ≠ "" ∧
    ((ServerJs.extractTextFromPdf (fun _ => Except.error "boom" : String → Except String Unit)
        (fun _ => Except.ok "") "u").1 = Except.error "boom") ∧
    ((ServerJs.handleSummarize (fun _ => Except.error "boom" : String → Except String Unit)
        (fun _ => Except.ok "") (fun _ => Except.ok "")
        (SummaryRequest.mk (some "u") (some "t"))).2 = [Call.fetch "u"] ∧
     (ServerJs.handleSummarize (fun _ => Except.error "boom" : String → Except String Unit)
        (fun _ => Except.ok "") (fun _ => Except.ok "")
        (SummaryRequest.mk (some "u") (some "t"))).1 = ServerJs.catchResponse "boom") :=
  ⟨by decide, by decide, rfl,
   (C6_sequential_short_circuit (fun _ => Except.error "boom" : String → Except String Unit)
       (fun _ => Except.ok "") (fun _ => Except.ok "") "u" "t" (by decide) (by decide)).1
     "boom" rfl⟩

end Summarizer
